import Mathlib

/-!
Shallow embedding of `src/app/render/backend/renderbackend.cpp` (Olive's
render dispatch backend) and proofs about it.

Modelling conventions:
* Live-graph nodes, live/snapshot `NodeInput*` pointers and snapshot nodes
  are all modelled as natural numbers (pointer identities).
* The external node-graph interface (`parentNode`, `OutputsTo`, `IsArray`,
  `sub_params`, `copy`, `GetInputWithID`, `is_connected`,
  `GetExclusiveDependencies`, `get_connected_node`,
  `GetInputsIncludingArrays`, the viewer's `texture_input` /
  `samples_input` and `QThreadPool::maxThreadCount`) is a parameter
  structure `Env`: those classes live outside this translation unit.
* `VideoParams::is_valid()` / `AudioParams::is_valid()` are abstracted to
  the booleans `videoValid` / `audioValid` of the backend state.
* `RenderTicket::Cancel()` mutates a shared object; we track the set of
  canceled ticket ids in the state (`canceled`), and `deleteLater` on
  snapshot nodes is tracked by the `deleted` log.
* `QMetaObject::invokeMethod(this, "RunNextJob", Qt::QueuedConnection)`
  is modelled by incrementing the `pendingDispatch` counter;
  `QtConcurrent::run(... worker ...)` by appending the ticket to the
  `jobsLog`; a run of `ProcessUpdateQueue` increments `flushLog`.
* The recursive copy helpers (`CopyNodeInputValue`, `CopyNodeConnections`,
  `CopyNodeMakeConnection`) recurse through the external graph, so they
  take a fuel argument; `Q_ASSERT` failure and fuel exhaustion are
  modelled by returning `none`.
-/

namespace Olive

/-- The `RenderTicket::Type` enumeration. -/
inductive TicketType where
  | kTypeHash
  | kTypeVideo
  | kTypeAudio
  deriving DecidableEq

/-- The `QVariant` payload stored in a ticket (`GetTime()`): a list of
time points for hashing, a single time for a frame, or a time range for
audio. -/
inductive TicketTime where
  | times (ts : List ℚ)
  | timePoint (t : ℚ)
  | range (tin tout : ℚ)
  deriving DecidableEq

/-- A `RenderTicket`, identified by the id `tid` (shared-pointer
identity). -/
structure RenderTicket where
  tid : Nat
  ttype : TicketType
  time : TicketTime
  deriving DecidableEq

/-- External interface consumed by the backend: the live node graph, its
snapshot counterparts and the thread pool.  Nodes and inputs are pointer
identities (`Nat`). -/
structure Env where
  /-- `NodeInput::parentNode()`. -/
  parentNode : Nat → Nat
  /-- `Node::OutputsTo(input, true, true)`: the node transitively feeds
  the given input. -/
  outputsTo : Nat → Nat → Bool
  /-- `NodeInput::IsArray()`. -/
  isArray : Nat → Bool
  /-- `NodeInputArray::sub_params()`. -/
  subParams : Nat → List Nat
  /-- `ViewerOutput::texture_input()`. -/
  textureInput : Nat → Nat
  /-- `ViewerOutput::samples_input()`. -/
  samplesInput : Nat → Nat
  /-- `Node::copy()`: the fresh node allocated for a source node. -/
  copyNode : Nat → Nat
  /-- `NodeInput::id()`. -/
  inputId : Nat → Nat
  /-- `Node::GetInputWithID(id)`. -/
  getInputWithID : Nat → Nat → Nat
  /-- `NodeInput::is_connected()`. -/
  isConnected : Nat → Bool
  /-- `NodeInput::GetExclusiveDependencies()`. -/
  exclusiveDeps : Nat → List Nat
  /-- `NodeInput::get_connected_node()`. -/
  connectedNode : Nat → Nat
  /-- `Node::GetInputsIncludingArrays()`. -/
  getInputsIncludingArrays : Nat → List Nat
  /-- The notification contract of the spec: the re-copy queued for input
  `q` will also copy the given live node (`covered by an already-pending
  bulk copy`). -/
  copyCovers : Nat → Nat → Bool
  /-- `QThreadPool::maxThreadCount()`. -/
  maxThreadCount : Nat
  /-- Recursion fuel for the copy helpers (the external graph is finite;
  any sufficiently large value is faithful). -/
  fuel : Nat

/-- The mutable state of a `RenderBackend` object. -/
structure State where
  /-- `viewer_node_`. -/
  viewer : Option Nat
  /-- `update_with_graph_`. -/
  updateWithGraph : Bool
  /-- `video_params_.is_valid()`. -/
  videoValid : Bool
  /-- `audio_params_.is_valid()`. -/
  audioValid : Bool
  /-- `render_queue_` (FIFO of tickets). -/
  renderQueue : List RenderTicket
  /-- `graph_update_queue_` (pending dirty live inputs). -/
  updateQueue : List Nat
  /-- `copy_map_`: live node ↦ snapshot node. -/
  copyMap : List (Nat × Nat)
  /-- `copied_viewer_node_`. -/
  copiedViewer : Option Nat
  /-- `workers_`: the busy flag of each worker slot. -/
  workers : List Bool
  /-- Whether `NodeGraphChanged` is connected to the viewer's
  `GraphChangedFrom` signal. -/
  connected : Bool
  /-- Ids of tickets on which `Cancel()` has been called. -/
  canceled : List Nat
  /-- Snapshot nodes passed to `deleteLater()`. -/
  deleted : List Nat
  /-- Next fresh ticket id (`std::make_shared` identity). -/
  nextTid : Nat
  /-- Number of queued `RunNextJob` invocations scheduled via
  `QMetaObject::invokeMethod`. -/
  pendingDispatch : Nat
  /-- Tickets handed to workers via `QtConcurrent::run`, in submission
  order. -/
  jobsLog : List RenderTicket
  /-- Number of completed `ProcessUpdateQueue` runs. -/
  flushLog : Nat
  deriving DecidableEq

/-- `QMap::value(key)` on the identity map. -/
def lookupMap (m : List (Nat × Nat)) (k : Nat) : Option Nat :=
  (m.find? (fun p => p.1 = k)).map (fun p => p.2)

/-- `QMap::insert(key, value)` (replaces an existing binding). -/
def insertMap (m : List (Nat × Nat)) (k v : Nat) : List (Nat × Nat) :=
  (k, v) :: m.filter (fun p => ¬ p.1 = k)

/-! ### Ticket submission (`Hash`, `RenderFrame`, `RenderAudio`) -/

/-- `RenderBackend::Hash`: returns `nullptr` when no viewer node is set,
otherwise creates a hash ticket, appends it to the render queue and
schedules a `RunNextJob` invocation. -/
def Hash (s : State) (times : List ℚ) : Option RenderTicket × State :=
  if s.viewer.isNone then
    (none, s)
  else
    let ticket : RenderTicket := ⟨s.nextTid, TicketType.kTypeHash, TicketTime.times times⟩
    (some ticket,
      { s with
        renderQueue := s.renderQueue ++ [ticket]
        nextTid := s.nextTid + 1
        pendingDispatch := s.pendingDispatch + 1 })

/-- `RenderBackend::RenderFrame`: same shape as `Hash` with a video
ticket. -/
def RenderFrame (s : State) (time : ℚ) : Option RenderTicket × State :=
  if s.viewer.isNone then
    (none, s)
  else
    let ticket : RenderTicket := ⟨s.nextTid, TicketType.kTypeVideo, TicketTime.timePoint time⟩
    (some ticket,
      { s with
        renderQueue := s.renderQueue ++ [ticket]
        nextTid := s.nextTid + 1
        pendingDispatch := s.pendingDispatch + 1 })

/-- `RenderBackend::RenderAudio`: same shape as `Hash` with an audio
ticket. -/
def RenderAudio (s : State) (tin tout : ℚ) : Option RenderTicket × State :=
  if s.viewer.isNone then
    (none, s)
  else
    let ticket : RenderTicket := ⟨s.nextTid, TicketType.kTypeAudio, TicketTime.range tin tout⟩
    (some ticket,
      { s with
        renderQueue := s.renderQueue ++ [ticket]
        nextTid := s.nextTid + 1
        pendingDispatch := s.pendingDispatch + 1 })

/-- `RenderBackend::ClearVideoQueue`: cancel every queued ticket and empty
the queue. -/
def ClearVideoQueue (s : State) : State :=
  { s with
    canceled := s.canceled ++ s.renderQueue.map RenderTicket.tid
    renderQueue := [] }

/-! ### Incremental update enqueue (`NodeGraphChanged`) -/

/-- The three early-return conditions of the scan in
`RenderBackend::NodeGraphChanged`: the new input is already queued, its
parent node transitively feeds the queued input, or it is a member of a
queued array input. -/
def ngcStop (E : Env) (source q : Nat) : Bool :=
  source = q
    || E.outputsTo (E.parentNode source) q
    || (E.isArray q && (E.subParams q).contains source)

/-- The removal condition of the scan: the queued input is superseded by
the new one (its parent feeds the new input, or it is a member of the new
array input). -/
def ngcDrop (E : Env) (source q : Nat) : Bool :=
  E.outputsTo (E.parentNode q) source
    || (E.isArray source && (E.subParams source).contains q)

/-- The `for` loop of `NodeGraphChanged` over `graph_update_queue_`:
returns the remaining queue together with `true` when the loop returned
early (one of the no-op conditions fired).  `removeAt(i); i--;` drops the
current entry and continues. -/
def ngcLoop (E : Env) (source : Nat) : List Nat → List Nat × Bool
  | [] => ([], false)
  | q :: rest =>
    if ngcStop E source q then
      (q :: rest, true)
    else if ngcDrop E source q then
      ngcLoop E source rest
    else
      let r := ngcLoop E source rest
      (q :: r.1, r.2)

/-- `RenderBackend::NodeGraphChanged`: ignore the input when its parent
node has no snapshot counterpart yet (the `Q_ASSERT` there is modelled by
`ngcAssertHolds`); otherwise scan the pending-update queue, dropping
superseded entries, and append the input unless a no-op condition
fired. -/
def NodeGraphChanged (E : Env) (s : State) (source : Nat) : State :=
  match lookupMap s.copyMap (E.parentNode source) with
  | none => s
  | some _ =>
    let r := ngcLoop E source s.updateQueue
    { s with updateQueue := if r.2 then r.1 else r.1 ++ [source] }

/-- The condition of the `Q_ASSERT(!graph_update_queue_.isEmpty())` in the
missing-counterpart branch of `NodeGraphChanged`. -/
def ngcAssertHolds (s : State) : Prop :=
  s.updateQueue ≠ []

/-! ### Snapshot copy helpers (`CopyNodeInputValue` and friends) -/

-- The mutually recursive copy routines.  Only the effects on the
-- modelled state are kept: `copy_map_` insertions and removals and
-- `deleteLater` calls; value copying (`NodeInput::CopyValues`,
-- `Node::CopyInputs`) and snapshot edge surgery (`ConnectEdge`,
-- `DisconnectEdge`) touch only external structures.  `none` models a
-- `Q_ASSERT` failure or fuel exhaustion.
mutual

/-- `RenderBackend::CopyNodeConnections`: look up (or create and insert)
the snapshot counterpart of `srcNode`, then re-copy every connection of
its inputs.  Returns the counterpart. -/
def CopyNodeConnections (E : Env) : Nat → State → Nat → Option (State × Nat)
  | 0, _, _ => none
  | fuel + 1, s, srcNode =>
    match lookupMap s.copyMap srcNode with
    | some dstNode =>
      match cncInputsGo E fuel s (E.getInputsIncludingArrays srcNode) with
      | some s1 => some (s1, dstNode)
      | none => none
    | none =>
      let dstNode := E.copyNode srcNode
      let s1 := { s with copyMap := insertMap s.copyMap srcNode dstNode }
      match cncInputsGo E fuel s1 (E.getInputsIncludingArrays srcNode) with
      | some s2 => some (s2, dstNode)
      | none => none

/-- The loop of `CopyNodeConnections` over the source node's inputs
(paired with the destination node's inputs, which only matter for the
unmodelled `ConnectEdge`). -/
def cncInputsGo (E : Env) : Nat → State → List Nat → Option State
  | 0, _, _ => none
  | _ + 1, s, [] => some s
  | fuel + 1, s, srcInput :: rest =>
    match CopyNodeMakeConnection E fuel s srcInput with
    | some s1 => cncInputsGo E fuel s1 rest
    | none => none

/-- `RenderBackend::CopyNodeMakeConnection`: when the source input is
connected, recursively copy the connected node's subgraph (and connect
the corresponding snapshot edge, which is external). -/
def CopyNodeMakeConnection (E : Env) : Nat → State → Nat → Option State
  | 0, _, _ => none
  | fuel + 1, s, srcInput =>
    if E.isConnected srcInput then
      match CopyNodeConnections E fuel s (E.connectedNode srcInput) with
      | some r => some r.1
      | none => none
    else
      some s

/-- `RenderBackend::CopyNodeInputValue`: find the snapshot counterpart of
the input's parent node (`Q_ASSERT(our_copy_node)` modelled by `none`),
copy the value state, and on a connection change remove the snapshot
input's exclusive dependencies from the identity map (deleting them)
before re-copying the live connection graph; finally recurse into array
members. -/
def CopyNodeInputValue (E : Env) : Nat → State → Nat → Option State
  | 0, _, _ => none
  | fuel + 1, s, input =>
    match lookupMap s.copyMap (E.parentNode input) with
    | none => none
    | some ourCopyNode =>
      let ourCopy := E.getInputWithID ourCopyNode (E.inputId input)
      let afterConn : Option State :=
        if E.isConnected input || E.isConnected ourCopy then
          let olds := E.exclusiveDeps ourCopy
          let s1 :=
            { s with
              copyMap := s.copyMap.filter (fun p => ¬ p.2 ∈ olds)
              deleted := s.deleted ++ olds }
          CopyNodeMakeConnection E fuel s1 input
        else
          some s
      match afterConn with
      | none => none
      | some s2 =>
        if E.isArray input then
          cnivSubGo E fuel s2 (E.subParams input)
        else
          some s2

/-- The loop of `CopyNodeInputValue` over the members of an array
input. -/
def cnivSubGo (E : Env) : Nat → State → List Nat → Option State
  | 0, _, _ => none
  | _ + 1, s, [] => some s
  | fuel + 1, s, i :: rest =>
    match CopyNodeInputValue E fuel s i with
    | some s1 => cnivSubGo E fuel s1 rest
    | none => none

end

/-- The `while` loop of `RenderBackend::ProcessUpdateQueue` over an
explicit list of pending inputs. -/
def puqGo (E : Env) : List Nat → State → Option State
  | [], s => some s
  | i :: rest, s =>
    match CopyNodeInputValue E E.fuel s i with
    | some s1 => puqGo E rest s1
    | none => none

/-- `RenderBackend::ProcessUpdateQueue`: drain the pending-update queue,
applying `CopyNodeInputValue` to each entry in order. -/
def ProcessUpdateQueue (E : Env) (s : State) : Option State :=
  puqGo E s.updateQueue { s with updateQueue := [], flushLog := s.flushLog + 1 }

/-! ### Attach / detach (`SetViewerNode`) -/

/-- The `if (old_viewer)` detach block of `RenderBackend::SetViewerNode`:
clear and drain the pool, cancel and clear the render queue, delete every
snapshot node, clear the identity map and pending-update queue, and
disconnect the change notification. -/
def detachViewer (s : State) : State :=
  { s with
    canceled := s.canceled ++ s.renderQueue.map RenderTicket.tid
    renderQueue := []
    deleted := s.deleted ++ s.copyMap.map (fun p => p.2)
    copyMap := []
    copiedViewer := none
    updateQueue := []
    connected := false }

/-- `RenderBackend::SetViewerNode`: no-op when the subject is unchanged;
otherwise detach the old subject (if any), then, for a new subject, copy
the viewer node, seed the pending-update queue from its two root inputs,
drain it, and subscribe to change notifications when update tracking is
enabled. -/
def SetViewerNode (E : Env) (s : State) (v : Option Nat) : Option State :=
  if s.viewer = v then
    some s
  else
    let old := s.viewer
    -- if setting to null, set it here before we wait for jobs to finish
    let s1 := if v.isNone then { s with viewer := v } else s
    let s2 := if old.isSome then detachViewer s1 else s1
    -- if setting to non-null, set it now
    let s3 := if v.isSome then { s2 with viewer := v } else s2
    match s3.viewer with
    | none => some s3
    | some nv =>
      let d := E.copyNode nv
      let s4 :=
        { s3 with
          copiedViewer := some d
          copyMap := insertMap s3.copyMap nv d }
      let s5 := NodeGraphChanged E s4 (E.textureInput nv)
      let s6 := NodeGraphChanged E s5 (E.samplesInput nv)
      match ProcessUpdateQueue E s6 with
      | none => none
      | some s7 =>
        some (if s7.updateWithGraph then { s7 with connected := true } else s7)

/-! ### Dispatch (`RunNextJob`, `WorkerFinished`) -/

/-- The `all_workers_available` scan in `RunNextJob`. -/
def allIdle (ws : List Bool) : Bool :=
  ws.all (fun b => !b)

/-- The job-popping loop of `RunNextJob` over the worker slots: each idle
worker is marked busy and receives the front ticket; the loop breaks as
soon as the queue empties.  Returns the new busy flags, the remaining
queue and the submitted tickets in order. -/
def runJobs : List Bool → List RenderTicket → List Bool × List RenderTicket × List RenderTicket
  | [], q => ([], q, [])
  | b :: ws, q =>
    if b then
      let r := runJobs ws q
      (b :: r.1, r.2.1, r.2.2)
    else
      match q with
      | [] => (b :: ws, [], [])
      | t :: rest =>
        if rest.isEmpty then
          -- no more jobs, can exit here
          (true :: ws, [], [t])
        else
          let r := runJobs ws rest
          (true :: r.1, r.2.1, t :: r.2.2)

/-- `RenderBackend::RunNextJob`: return when the queue is empty or the
output parameters are invalid; when update tracking is on and updates are
pending, flush only if every worker is idle and otherwise return without
dispatching; then lazily allocate the worker slots and hand queued
tickets to idle workers. -/
def RunNextJob (E : Env) (s : State) : Option State :=
  if s.renderQueue.isEmpty then
    some s
  else if !(s.videoValid && s.audioValid) then
    some s
  else if s.updateWithGraph && !s.updateQueue.isEmpty && !allIdle s.workers then
    -- a worker is busy: defer the flush and exit without dispatching
    some s
  else
    let flushed : Option State :=
      if s.updateWithGraph && !s.updateQueue.isEmpty then
        ProcessUpdateQueue E s
      else
        some s
    match flushed with
    | none => none
    | some s1 =>
      let s2 :=
        if s1.workers.isEmpty then
          { s1 with workers := List.replicate E.maxThreadCount false }
        else
          s1
      let r := runJobs s2.workers s2.renderQueue
      some
        { s2 with
          workers := r.1
          renderQueue := r.2.1
          jobsLog := s2.jobsLog ++ r.2.2 }

/-- `RenderBackend::WorkerFinished`: mark the reporting worker idle and
re-attempt dispatch when a subject is still attached. -/
def WorkerFinished (E : Env) (s : State) (w : Nat) : Option State :=
  let s1 := { s with workers := s.workers.set w false }
  if s1.viewer.isSome then RunNextJob E s1 else some s1

/-! ### Time-range chunking (`SplitRangeIntoChunks`) -/

/-- The `for (int i = start_time; i < end_time; i += chunk_size)` loop of
`RenderBackend::SplitRangeIntoChunks`.  The guard `0 < cs` mirrors the
fact that the C++ loop only terminates for a positive chunk size. -/
def splitGo (rin rout : ℚ) (cs : ℤ) (i stop : ℤ) : List (ℚ × ℚ) :=
  if h : 0 < cs ∧ i < stop then
    (max rin (i : ℚ), min rout ((i + cs : ℤ) : ℚ)) :: splitGo rin rout cs (i + cs) stop
  else
    []
termination_by (stop - i).toNat
decreasing_by
  omega

/-- `SplitRangeIntoChunks` generalized over the chunk size: the start is
the range's in-point floored to a chunk boundary, the stop its out-point
ceiled to a chunk boundary. -/
def SplitRangeIntoChunksWith (cs : ℤ) (rin rout : ℚ) : List (ℚ × ℚ) :=
  splitGo rin rout cs (⌊rin / (cs : ℚ)⌋ * cs) (⌈rout / (cs : ℚ)⌉ * cs)

/-- `RenderBackend::SplitRangeIntoChunks` with the source's fixed chunk
size of 2. -/
def SplitRangeIntoChunks (rin rout : ℚ) : List (ℚ × ℚ) :=
  SplitRangeIntoChunksWith 2 rin rout

/-! ### Concrete instances used by counterexamples and witnesses -/

/-- A backend state as produced by the constructor: no viewer, invalid
parameters, everything empty. -/
def initState : State :=
  { viewer := none
    updateWithGraph := false
    videoValid := false
    audioValid := false
    renderQueue := []
    updateQueue := []
    copyMap := []
    copiedViewer := none
    workers := []
    connected := false
    canceled := []
    deleted := []
    nextTid := 0
    pendingDispatch := 0
    jobsLog := []
    flushLog := 0 }

/-- A degenerate external graph: no connections, no arrays, no feeding,
one worker thread. -/
def trivEnv : Env :=
  { parentNode := fun n => n
    outputsTo := fun _ _ => false
    isArray := fun _ => false
    subParams := fun _ => []
    textureInput := fun n => n
    samplesInput := fun n => n
    copyNode := fun n => n + 100
    inputId := fun n => n
    getInputWithID := fun _ i => i
    isConnected := fun _ => false
    exclusiveDeps := fun _ => []
    connectedNode := fun n => n
    getInputsIncludingArrays := fun _ => []
    copyCovers := fun _ _ => true
    maxThreadCount := 1
    fuel := 1 }

/-! ### Claim theorems -/

theorem submission_behavior (s : State) :
    (s.viewer = none →
      (∀ ts, Hash s ts = (none, s)) ∧
      (∀ t, RenderFrame s t = (none, s)) ∧
      (∀ a b, RenderAudio s a b = (none, s))) ∧
    (s.viewer ≠ none →
      (∀ ts,
        (Hash s ts).1 = some ⟨s.nextTid, TicketType.kTypeHash, TicketTime.times ts⟩ ∧
        (Hash s ts).2.renderQueue =
          s.renderQueue ++ [⟨s.nextTid, TicketType.kTypeHash, TicketTime.times ts⟩] ∧
        (Hash s ts).2.pendingDispatch = s.pendingDispatch + 1) ∧
      (∀ t,
        (RenderFrame s t).1 = some ⟨s.nextTid, TicketType.kTypeVideo, TicketTime.timePoint t⟩ ∧
        (RenderFrame s t).2.renderQueue =
          s.renderQueue ++ [⟨s.nextTid, TicketType.kTypeVideo, TicketTime.timePoint t⟩] ∧
        (RenderFrame s t).2.pendingDispatch = s.pendingDispatch + 1) ∧
      (∀ a b,
        (RenderAudio s a b).1 = some ⟨s.nextTid, TicketType.kTypeAudio, TicketTime.range a b⟩ ∧
        (RenderAudio s a b).2.renderQueue =
          s.renderQueue ++ [⟨s.nextTid, TicketType.kTypeAudio, TicketTime.range a b⟩] ∧
        (RenderAudio s a b).2.pendingDispatch = s.pendingDispatch + 1)) := by
  constructor
  · intro h
    refine ⟨fun ts => ?_, fun t => ?_, fun a b => ?_⟩ <;>
      simp [Hash, RenderFrame, RenderAudio, h]
  · intro h
    have h' : s.viewer.isNone = false := by
      cases hv : s.viewer with
      | none => exact absurd hv h
      | some v => simp
    refine ⟨fun ts => ?_, fun t => ?_, fun a b => ?_⟩ <;>
      simp [Hash, RenderFrame, RenderAudio, h']

/-- C7: a submission with no subject attached returns a null handle and
leaves the state unchanged; with a subject attached it returns a fresh
ticket of the corresponding kind, appends exactly that ticket at the back
of the render queue, and schedules a dispatch attempt. -/
theorem submission_contract (s : State) :
    (s.viewer = none →
      (∀ ts, Hash s ts = (none, s)) ∧
      (∀ t, RenderFrame s t = (none, s)) ∧
      (∀ a b, RenderAudio s a b = (none, s))) ∧
    (s.viewer ≠ none →
      (∀ ts,
        (Hash s ts).1 = some ⟨s.nextTid, TicketType.kTypeHash, TicketTime.times ts⟩ ∧
        (Hash s ts).2.renderQueue =
          s.renderQueue ++ [⟨s.nextTid, TicketType.kTypeHash, TicketTime.times ts⟩] ∧
        (Hash s ts).2.pendingDispatch = s.pendingDispatch + 1) ∧
      (∀ t,
        (RenderFrame s t).1 = some ⟨s.nextTid, TicketType.kTypeVideo, TicketTime.timePoint t⟩ ∧
        (RenderFrame s t).2.renderQueue =
          s.renderQueue ++ [⟨s.nextTid, TicketType.kTypeVideo, TicketTime.timePoint t⟩] ∧
        (RenderFrame s t).2.pendingDispatch = s.pendingDispatch + 1) ∧
      (∀ a b,
        (RenderAudio s a b).1 = some ⟨s.nextTid, TicketType.kTypeAudio, TicketTime.range a b⟩ ∧
        (RenderAudio s a b).2.renderQueue =
          s.renderQueue ++ [⟨s.nextTid, TicketType.kTypeAudio, TicketTime.range a b⟩] ∧
        (RenderAudio s a b).2.pendingDispatch = s.pendingDispatch + 1)) :=
  submission_behavior s

/-- C7 witness: submitting a frame with a subject attached yields the
fresh video ticket and grows the queue. -/
theorem submission_contract_witness :
    (RenderFrame { initState with viewer := some 0 } 1).1 =
      some ⟨0, TicketType.kTypeVideo, TicketTime.timePoint 1⟩ ∧
    (RenderFrame { initState with viewer := some 0 } 1).2.renderQueue =
      [⟨0, TicketType.kTypeVideo, TicketTime.timePoint 1⟩] := by
  have h := ((submission_contract { initState with viewer := some 0 }).2 (by decide) ).2.1 1
  exact ⟨h.1, h.2.1⟩

/-- C6 counterexample: with a subject attached but invalid video
parameters, `Hash` still returns a non-null ticket and grows the render
queue, contradicting the claim that all submissions fail when parameters
are invalid. -/
theorem submission_invalid_params_cex :
    ({ initState with viewer := some 0 } : State).videoValid = false ∧
    (Hash { initState with viewer := some 0 } []).1 ≠ none ∧
    (Hash { initState with viewer := some 0 } []).2.renderQueue ≠
      ({ initState with viewer := some 0 } : State).renderQueue := by
  refine ⟨rfl, ?_, ?_⟩ <;> decide

/-- C6 amended: a submission returns a null handle exactly when no
subject is attached, regardless of parameter validity; invalid output
parameters instead make the dispatch operation return early without
handing any job to a worker. -/
theorem submission_null_iff_no_subject (E : Env) (s : State) :
    (s.viewer = none →
      (∀ ts, Hash s ts = (none, s)) ∧
      (∀ t, RenderFrame s t = (none, s)) ∧
      (∀ a b, RenderAudio s a b = (none, s))) ∧
    (s.viewer ≠ none →
      (∀ ts, (Hash s ts).1 ≠ none) ∧
      (∀ t, (RenderFrame s t).1 ≠ none) ∧
      (∀ a b, (RenderAudio s a b).1 ≠ none)) ∧
    (s.videoValid = false ∨ s.audioValid = false → RunNextJob E s = some s) := by
  refine ⟨fun h => (submission_behavior s).1 h, fun h => ?_, fun h => ?_⟩
  · have h2 := (submission_behavior s).2 h
    exact ⟨fun ts => by simp [(h2.1 ts).1],
           fun t => by simp [(h2.2.1 t).1],
           fun a b => by simp [(h2.2.2 a b).1]⟩
  · unfold RunNextJob
    rcases hq : s.renderQueue.isEmpty with _ | _
    · have hval : (s.videoValid && s.audioValid) = false := by
        rcases h with h | h <;> simp [h]
      simp [hq, hval]
    · simp [hq]

/-- C6 amended witness: in the counterexample state dispatch leaves the
state unchanged. -/
theorem submission_null_iff_no_subject_witness :
    RunNextJob trivEnv { initState with viewer := some 0 } =
      some { initState with viewer := some 0 } :=
  (submission_null_iff_no_subject trivEnv { initState with viewer := some 0 }).2.2
    (Or.inl rfl)

/-- C10: calling `SetViewerNode` with the graph that is already the
current subject (including a null subject when none is attached) is a
no-op. -/
theorem set_same_viewer_noop (E : Env) (s : State) (v : Option Nat) (h : s.viewer = v) :
    SetViewerNode E s v = some s := by
  unfold SetViewerNode
  simp [h]

/-- C10 witness: detaching when nothing is attached is a no-op. -/
theorem set_same_viewer_noop_witness :
    SetViewerNode trivEnv initState none = some initState :=
  set_same_viewer_noop trivEnv initState none rfl

/-- C5: detaching a previously attached subject empties the render queue,
cancels every queued ticket, deletes every snapshot node, clears the
identity map and pending-update queue, and disconnects the change
notification. -/
theorem detach_clears_everything (E : Env) (s : State) (v : Nat) (h : s.viewer = some v) :
    ∃ s', SetViewerNode E s none = some s' ∧
      s'.renderQueue = [] ∧
      (∀ t ∈ s.renderQueue, t.tid ∈ s'.canceled) ∧
      (∀ p ∈ s.copyMap, p.2 ∈ s'.deleted) ∧
      s'.copyMap = [] ∧
      s'.updateQueue = [] ∧
      s'.connected = false := by
  refine ⟨detachViewer { s with viewer := none }, ?_, ?_, ?_, ?_, rfl, rfl, rfl⟩
  · unfold SetViewerNode
    simp [h, detachViewer]
  · rfl
  · intro t ht
    simp only [detachViewer, List.mem_append, List.mem_map]
    exact Or.inr ⟨t, ht, rfl⟩
  · intro p hp
    simp only [detachViewer, List.mem_append, List.mem_map]
    exact Or.inr ⟨p, hp, rfl⟩

/-- C5 witness: detaching a concrete attached state with one queued
ticket and one snapshot node. -/
theorem detach_clears_everything_witness :
    ∃ s', SetViewerNode trivEnv
        { initState with
          viewer := some 0
          renderQueue := [⟨3, TicketType.kTypeHash, TicketTime.times []⟩]
          copyMap := [(0, 100)] } none = some s' ∧
      s'.renderQueue = [] ∧
      (∀ t ∈ ({ initState with
          viewer := some 0
          renderQueue := [⟨3, TicketType.kTypeHash, TicketTime.times []⟩]
          copyMap := [(0, 100)] } : State).renderQueue, t.tid ∈ s'.canceled) ∧
      (∀ p ∈ ({ initState with
          viewer := some 0
          renderQueue := [⟨3, TicketType.kTypeHash, TicketTime.times []⟩]
          copyMap := [(0, 100)] } : State).copyMap, p.2 ∈ s'.deleted) ∧
      s'.copyMap = [] ∧
      s'.updateQueue = [] ∧
      s'.connected = false :=
  detach_clears_everything trivEnv _ 0 rfl

/-- Number of idle slots in a worker list. -/
def idleCount (ws : List Bool) : Nat :=
  ws.countP (fun b => !b)
theorem runJobs_spec : ∀ (ws : List Bool) (q : List RenderTicket),
    (runJobs ws q).2.2 = q.take (min (idleCount ws) q.length) ∧
    (runJobs ws q).2.1 = q.drop (min (idleCount ws) q.length)
  | [], q => by simp [runJobs, idleCount]
  | true :: ws, q => by
    have ih := runJobs_spec ws q
    have hic : idleCount (true :: ws) = idleCount ws := by simp [idleCount]
    simpa [runJobs, hic] using ih
  | false :: ws, [] => by simp [runJobs]
  | false :: ws, [t] => by
    have hic : idleCount (false :: ws) = idleCount ws + 1 := by simp [idleCount]
    have hm : min (idleCount ws + 1) 1 = 1 := by omega
    simp [runJobs, hic, hm]
  | false :: ws, t :: r :: rs => by
    have ih := runJobs_spec ws (r :: rs)
    have hic : idleCount (false :: ws) = idleCount ws + 1 := by simp [idleCount]
    have hm : min (idleCount ws + 1) ((r :: rs).length + 1) =
        min (idleCount ws) ((r :: rs).length) + 1 := by omega
    rw [List.length_cons] at hm
    simp only [runJobs, List.isEmpty_cons, Bool.false_eq_true, if_false, List.length_cons,
      hic]
    rw [hm, List.take_succ_cons, List.drop_succ_cons]
    exact ⟨by rw [ih.1]; simp, by rw [ih.2]; simp⟩

/-- The number of tickets `RunNextJob` hands out: one per idle worker
slot (after lazy allocation), bounded by the queue length. -/
def dispatchCount (E : Env) (s : State) : Nat :=
  min
    (idleCount (if s.workers.isEmpty then List.replicate E.maxThreadCount false
      else s.workers))
    s.renderQueue.length

/-- C1 counterexample: a ticket that was canceled while still queued is
nevertheless popped and handed to a worker by the dispatch loop — the
code never consults the cancellation flag at dispatch time. -/
theorem canceled_ticket_dispatched_cex :
    (0 : Nat) ∈ ({ initState with
        viewer := some 0
        videoValid := true
        audioValid := true
        renderQueue := [⟨0, TicketType.kTypeVideo, TicketTime.timePoint 1⟩]
        canceled := [0]
        nextTid := 1 } : State).canceled ∧
    (RunNextJob trivEnv { initState with
        viewer := some 0
        videoValid := true
        audioValid := true
        renderQueue := [⟨0, TicketType.kTypeVideo, TicketTime.timePoint 1⟩]
        canceled := [0]
        nextTid := 1 }).map State.jobsLog =
      some [⟨0, TicketType.kTypeVideo, TicketTime.timePoint 1⟩] := by
  exact ⟨by decide, rfl⟩

/-- C1 amended: the dispatch loop does not consult cancellation at all —
it hands the first `min(idle workers, queue length)` tickets to workers
strictly in FIFO order, whether or not they have been canceled, and
leaves the rest of the queue in order. -/
theorem dispatch_fifo_ignores_cancellation (E : Env) (s : State)
    (hv : s.videoValid = true) (ha : s.audioValid = true)
    (hupd : s.updateWithGraph = false ∨ s.updateQueue = []) :
    ∃ s', RunNextJob E s = some s' ∧
      s'.jobsLog = s.jobsLog ++ s.renderQueue.take (dispatchCount E s) ∧
      s'.renderQueue = s.renderQueue.drop (dispatchCount E s) ∧
      ∀ t ∈ s.renderQueue.take (dispatchCount E s), t ∈ s'.jobsLog := by
  by_cases hq : s.renderQueue.isEmpty
  · have hnil : s.renderQueue = [] := by
      cases h : s.renderQueue with
      | nil => rfl
      | cons x xs => rw [h] at hq; simp at hq
    refine ⟨s, ?_, ?_, ?_, ?_⟩
    · unfold RunNextJob; simp [hq]
    · simp [hnil]
    · simp [hnil]
    · simp [hnil]
  · have hgate : (s.updateWithGraph && !s.updateQueue.isEmpty) = false := by
      rcases hupd with h | h <;> simp [h]
    have hval : (s.videoValid && s.audioValid) = true := by simp [hv, ha]
    have hspec := runJobs_spec
      (if s.workers.isEmpty then List.replicate E.maxThreadCount false else s.workers)
      s.renderQueue
    have hrun : RunNextJob E s = some
        { s with
          workers := (runJobs
            (if s.workers.isEmpty then List.replicate E.maxThreadCount false
              else s.workers) s.renderQueue).1
          renderQueue := (runJobs
            (if s.workers.isEmpty then List.replicate E.maxThreadCount false
              else s.workers) s.renderQueue).2.1
          jobsLog := s.jobsLog ++ (runJobs
            (if s.workers.isEmpty then List.replicate E.maxThreadCount false
              else s.workers) s.renderQueue).2.2 } := by
      unfold RunNextJob
      by_cases hw : s.workers.isEmpty <;>
        simp [hq, hval, hgate, hw]
    refine ⟨_, hrun, ?_, ?_, ?_⟩
    · show s.jobsLog ++ _ = _
      rw [hspec.1, dispatchCount]
    · show (runJobs _ _).2.1 = _
      rw [hspec.2, dispatchCount]
    · intro t ht
      show t ∈ s.jobsLog ++ _
      rw [hspec.1]
      rw [dispatchCount] at ht
      exact List.mem_append_right _ ht

/-- C1 amended witness: the canceled ticket of the counterexample state
goes out FIFO. -/
theorem dispatch_fifo_ignores_cancellation_witness :
    ∃ s', RunNextJob trivEnv { initState with
        viewer := some 0
        videoValid := true
        audioValid := true
        renderQueue := [⟨0, TicketType.kTypeVideo, TicketTime.timePoint 1⟩]
        canceled := [0]
        nextTid := 1 } = some s' ∧
      s'.jobsLog = ({ initState with
        viewer := some 0
        videoValid := true
        audioValid := true
        renderQueue := [⟨0, TicketType.kTypeVideo, TicketTime.timePoint 1⟩]
        canceled := [0]
        nextTid := 1 } : State).jobsLog ++
        ({ initState with
        viewer := some 0
        videoValid := true
        audioValid := true
        renderQueue := [⟨0, TicketType.kTypeVideo, TicketTime.timePoint 1⟩]
        canceled := [0]
        nextTid := 1 } : State).renderQueue.take (dispatchCount trivEnv { initState with
        viewer := some 0
        videoValid := true
        audioValid := true
        renderQueue := [⟨0, TicketType.kTypeVideo, TicketTime.timePoint 1⟩]
        canceled := [0]
        nextTid := 1 }) ∧
      s'.renderQueue = ({ initState with
        viewer := some 0
        videoValid := true
        audioValid := true
        renderQueue := [⟨0, TicketType.kTypeVideo, TicketTime.timePoint 1⟩]
        canceled := [0]
        nextTid := 1 } : State).renderQueue.drop (dispatchCount trivEnv { initState with
        viewer := some 0
        videoValid := true
        audioValid := true
        renderQueue := [⟨0, TicketType.kTypeVideo, TicketTime.timePoint 1⟩]
        canceled := [0]
        nextTid := 1 }) ∧
      ∀ t ∈ ({ initState with
        viewer := some 0
        videoValid := true
        audioValid := true
        renderQueue := [⟨0, TicketType.kTypeVideo, TicketTime.timePoint 1⟩]
        canceled := [0]
        nextTid := 1 } : State).renderQueue.take (dispatchCount trivEnv { initState with
        viewer := some 0
        videoValid := true
        audioValid := true
        renderQueue := [⟨0, TicketType.kTypeVideo, TicketTime.timePoint 1⟩]
        canceled := [0]
        nextTid := 1 }), t ∈ s'.jobsLog :=
  dispatch_fifo_ignores_cancellation trivEnv _ rfl rfl (Or.inl rfl)

/-- C2: when update tracking is on and updates are pending, a busy worker
makes dispatch return with the state completely unchanged (no flush, no
job); a flush performed by dispatch implies every worker slot was idle;
and each worker-completion event retries dispatch while a subject is
attached. -/
theorem flush_gated_on_idle_workers (E : Env) (s : State) :
    (s.updateWithGraph = true → s.updateQueue ≠ [] → (∃ b ∈ s.workers, b = true) →
      RunNextJob E s = some s) ∧
    (∀ s', RunNextJob E s = some s' → s.flushLog < s'.flushLog → allIdle s.workers = true) ∧
    (∀ w, s.viewer.isSome = true →
      WorkerFinished E s w = RunNextJob E { s with workers := s.workers.set w false }) := by
  refine ⟨?_, ?_, ?_⟩
  · intro htrack hupd hbusy
    have hallidle : allIdle s.workers = false := by
      obtain ⟨b, hb, rfl⟩ := hbusy
      simp only [allIdle, List.all_eq_false]
      exact ⟨true, hb, by simp⟩
    have hne : s.updateQueue.isEmpty = false := by
      cases h : s.updateQueue with
      | nil => exact absurd h hupd
      | cons x xs => simp
    unfold RunNextJob
    by_cases hq : s.renderQueue.isEmpty
    · simp [hq]
    · by_cases hval : (s.videoValid && s.audioValid) = true
      · simp [hq, hval, htrack, hne, hallidle]
      · simp only [Bool.not_eq_true] at hval
        simp [hq, hval]
  · intro s' hrun hflush
    by_cases hidle : allIdle s.workers = true
    · exact hidle
    · exfalso
      unfold RunNextJob at hrun
      by_cases hq : s.renderQueue.isEmpty
      · simp [hq] at hrun
        subst hrun; exact absurd hflush (lt_irrefl _)
      · by_cases hval : (s.videoValid && s.audioValid) = true
        · by_cases hgate : (s.updateWithGraph && !s.updateQueue.isEmpty) = true
          · have hcond : (s.updateWithGraph && !s.updateQueue.isEmpty && !allIdle s.workers)
                = true := by
              simp only [Bool.not_eq_true] at hidle
              simp [hgate, hidle]
            simp [hq, hval, hcond] at hrun
            subst hrun; exact absurd hflush (lt_irrefl _)
          · simp only [Bool.not_eq_true] at hgate
            simp [hq, hval, hgate] at hrun
            subst hrun
            by_cases hw : s.workers = [] <;> simp [hw] at hflush
        · simp only [Bool.not_eq_true] at hval
          simp [hq, hval] at hrun
          subst hrun; exact absurd hflush (lt_irrefl _)
  · intro w hv
    unfold WorkerFinished
    simp [hv]

/-- C2 witness: with tracking enabled, a pending update and a busy
worker, dispatch is a no-op on a concrete state. -/
theorem flush_gated_on_idle_workers_witness :
    RunNextJob trivEnv { initState with
        viewer := some 0
        updateWithGraph := true
        videoValid := true
        audioValid := true
        renderQueue := [⟨0, TicketType.kTypeHash, TicketTime.times []⟩]
        updateQueue := [5]
        workers := [true]
        nextTid := 1 } = some { initState with
        viewer := some 0
        updateWithGraph := true
        videoValid := true
        audioValid := true
        renderQueue := [⟨0, TicketType.kTypeHash, TicketTime.times []⟩]
        updateQueue := [5]
        workers := [true]
        nextTid := 1 } :=
  (flush_gated_on_idle_workers trivEnv _).1 rfl (by decide) ⟨true, by decide, rfl⟩


/-! ### Coalescing invariant (C3, C4) -/

/-- Two inputs are redundant for the pending-update queue: equal, one's
parent node transitively feeds the other, or one is an array member of
the other. -/
def redundantB (E : Env) (a b : Nat) : Bool :=
  a = b
    || E.outputsTo (E.parentNode a) b
    || E.outputsTo (E.parentNode b) a
    || (E.isArray b && (E.subParams b).contains a)
    || (E.isArray a && (E.subParams a).contains b)

/-- The pending-update queue invariant: no two queued descriptors are
redundant. -/
def Irredundant (E : Env) (l : List Nat) : Prop :=
  l.Pairwise (fun a b => redundantB E a b = false)

instance (E : Env) (l : List Nat) : Decidable (Irredundant E l) := by
  unfold Irredundant
  infer_instance

theorem stop_drop_false_redundant (E : Env) (source q : Nat)
    (hs : ngcStop E source q = false) (hd : ngcDrop E source q = false) :
    redundantB E q source = false := by
  simp only [ngcStop, Bool.or_eq_false_iff, decide_eq_false_iff_not] at hs
  simp only [ngcDrop, Bool.or_eq_false_iff] at hd
  simp only [redundantB, Bool.or_eq_false_iff, decide_eq_false_iff_not]
  exact ⟨⟨⟨⟨fun h => hs.1.1 h.symm, hd.1⟩, hs.1.2⟩, hd.2⟩, hs.2⟩

theorem ngcLoop_sublist (E : Env) (source : Nat) :
    ∀ l : List Nat, (ngcLoop E source l).1.Sublist l := by
  intro l
  induction l with
  | nil => simp [ngcLoop]
  | cons q rest ih =>
    simp only [ngcLoop]
    by_cases hs : ngcStop E source q = true
    · simp [hs]
    · simp only [Bool.not_eq_true] at hs
      by_cases hd : ngcDrop E source q = true
      · simp only [hs, Bool.false_eq_true, if_false, hd, if_true]
        exact ih.cons q
      · simp only [Bool.not_eq_true] at hd
        simp only [hs, Bool.false_eq_true, if_false, hd]
        exact ih.cons₂ q

theorem ngcLoop_no_early (E : Env) (source : Nat) :
    ∀ l : List Nat, (ngcLoop E source l).2 = false →
      ∀ q ∈ (ngcLoop E source l).1,
        ngcStop E source q = false ∧ ngcDrop E source q = false := by
  intro l
  induction l with
  | nil => intro _ q hq; simp [ngcLoop] at hq
  | cons p rest ih =>
    intro hne q hq
    simp only [ngcLoop] at hne hq
    by_cases hs : ngcStop E source p = true
    · simp [hs] at hne
    · simp only [Bool.not_eq_true] at hs
      by_cases hd : ngcDrop E source p = true
      · simp only [hs, Bool.false_eq_true, if_false, hd, if_true] at hne hq
        exact ih hne q hq
      · simp only [Bool.not_eq_true] at hd
        simp only [hs, Bool.false_eq_true, if_false, hd, List.mem_cons] at hne hq
        rcases hq with rfl | hq
        · exact ⟨hs, hd⟩
        · exact ih hne q hq

/-- C3: `NodeGraphChanged` preserves the pending-update queue invariant:
after any enqueue no two queued descriptors are redundant — in
particular, queued entries superseded by the new input are removed before
it is appended. -/
theorem enqueue_preserves_irredundant (E : Env) (s : State) (source : Nat)
    (h : Irredundant E s.updateQueue) :
    Irredundant E (NodeGraphChanged E s source).updateQueue := by
  unfold NodeGraphChanged
  cases hcp : lookupMap s.copyMap (E.parentNode source) with
  | none => exact h
  | some c =>
    simp only []
    by_cases he : (ngcLoop E source s.updateQueue).2 = true
    · simp only [he, if_true]
      exact List.Pairwise.sublist (ngcLoop_sublist E source s.updateQueue) h
    · simp only [Bool.not_eq_true] at he
      simp only [he, Bool.false_eq_true, if_false]
      have hsub : Irredundant E (ngcLoop E source s.updateQueue).1 :=
        List.Pairwise.sublist (ngcLoop_sublist E source s.updateQueue) h
      rw [Irredundant, List.pairwise_append]
      refine ⟨hsub, List.pairwise_singleton _ _, ?_⟩
      intro a ha b hb
      simp only [List.mem_singleton] at hb
      have hq := ngcLoop_no_early E source s.updateQueue he a ha
      rw [hb]
      exact stop_drop_false_redundant E source a hq.1 hq.2

/-- C3 witness: enqueuing a fresh independent input on a concrete
irredundant two-entry queue keeps the queue irredundant. -/
theorem enqueue_preserves_irredundant_witness :
    Irredundant trivEnv
      ((NodeGraphChanged trivEnv { initState with
          copyMap := [(3, 103)]
          updateQueue := [1, 2] } 3).updateQueue) :=
  enqueue_preserves_irredundant trivEnv
    { initState with copyMap := [(3, 103)], updateQueue := [1, 2] } 3 (by decide)

/-- The external graph of the C4 counterexample: input 10 is an array on
node 1 with member input 11; input 20 lives on node 2, and node 2
transitively feeds input 11 (but not the array input 10 itself). -/
def c4Env : Env :=
  { trivEnv with
    parentNode := fun i => if i = 11 then 1 else if i = 10 then 1 else if i = 20 then 2 else 0
    outputsTo := fun n i => n = 2 && i = 11
    isArray := fun i => i = 10
    subParams := fun i => if i = 10 then [11] else [] }

/-- C4 counterexample: the queue `[20, 10]` is irredundant and contains
the array input 10 whose member 11 is being enqueued, yet the enqueue is
not a no-op — entry 20 is superseded by 11 and removed before the scan
reaches the array, so the queue afterwards is `[10]`, not `[20, 10]`. -/
theorem array_member_enqueue_not_noop_cex :
    c4Env.isArray 10 = true ∧
    (10 : Nat) ∈ ({ initState with
        copyMap := [(1, 101)]
        updateQueue := [20, 10] } : State).updateQueue ∧
    (11 : Nat) ∈ c4Env.subParams 10 ∧
    Irredundant c4Env ({ initState with
        copyMap := [(1, 101)]
        updateQueue := [20, 10] } : State).updateQueue ∧
    (NodeGraphChanged c4Env { initState with
        copyMap := [(1, 101)]
        updateQueue := [20, 10] } 11).updateQueue = [10] := by
  refine ⟨by decide, by decide, by decide, ?_, by decide⟩
  decide

theorem ngcLoop_stop_unchanged (E : Env) (source : Nat) (a : Nat) (l₂ : List Nat)
    (hstop : ngcStop E source a = true) :
    ∀ l₁ : List Nat, (∀ q ∈ l₁, ngcDrop E source q = false) →
      ngcLoop E source (l₁ ++ a :: l₂) = (l₁ ++ a :: l₂, true) := by
  intro l₁
  induction l₁ with
  | nil =>
    intro _
    simp [ngcLoop, hstop]
  | cons p rest ih =>
    intro hpre
    simp only [List.cons_append, ngcLoop]
    by_cases hs : ngcStop E source p = true
    · simp [hs]
    · simp only [Bool.not_eq_true] at hs
      have hd : ngcDrop E source p = false := hpre p (List.mem_cons_self p rest)
      have hrec := ih (fun q hq => hpre q (List.mem_cons_of_mem p hq))
      simp [hs, hd, hrec]

/-- C4 amended: enqueuing an input that triggers one of the three no-op
conditions (already queued, its node feeds a queued input, or it is a
member of a queued array) leaves the queue exactly unchanged provided no
entry scanned before the no-op trigger is superseded by the new input; in
particular the motivating scenario (queue holding only the array entry)
is a strict no-op.  Without that proviso the scan may first remove
superseded entries, as the counterexample shows. -/
theorem covered_enqueue_noop (E : Env) (s : State) (source : Nat)
    (l₁ : List Nat) (a : Nat) (l₂ : List Nat)
    (hdec : s.updateQueue = l₁ ++ a :: l₂)
    (hstop : ngcStop E source a = true)
    (hpre : ∀ q ∈ l₁, ngcDrop E source q = false) :
    NodeGraphChanged E s source = s := by
  unfold NodeGraphChanged
  cases hcp : lookupMap s.copyMap (E.parentNode source) with
  | none => rfl
  | some c =>
    simp only []
    rw [hdec, ngcLoop_stop_unchanged E source a l₂ hstop l₁ hpre]
    simp only [if_true, ← hdec]

/-- C4 amended witness: with only the array entry queued, enqueuing its
member is a strict no-op. -/
theorem covered_enqueue_noop_witness :
    NodeGraphChanged c4Env { initState with
        copyMap := [(1, 101)]
        updateQueue := [10] } 11 = { initState with
        copyMap := [(1, 101)]
        updateQueue := [10] } :=
  covered_enqueue_noop c4Env _ 11 [] 10 [] rfl (by decide) (by intro q hq; simp at hq)

/-! ### The assertion branches under the notification contract (C8) -/

/-- The spec's notification contract for an input whose owning node has
no snapshot counterpart: a bulk copy covering that node is already
pending in the update queue. -/
def coveredByPending (E : Env) (s : State) (source : Nat) : Prop :=
  ∃ q ∈ s.updateQueue, E.copyCovers q (E.parentNode source) = true

/-- What one copy routine invocation can do to the identity map: deleted
nodes are only accumulated, and an existing binding either survives
unchanged or its snapshot node ends up in the deleted log (removed as an
exclusive dependency). -/
def MapPres (s t : State) : Prop :=
  (∀ d ∈ s.deleted, d ∈ t.deleted) ∧
  (∀ n c, lookupMap s.copyMap n = some c →
    lookupMap t.copyMap n = some c ∨ c ∈ t.deleted)

theorem mapPres_refl (s : State) : MapPres s s :=
  ⟨fun _ hd => hd, fun _ _ h => Or.inl h⟩

theorem mapPres_trans {s t u : State} (h1 : MapPres s t) (h2 : MapPres t u) :
    MapPres s u := by
  refine ⟨fun d hd => h2.1 d (h1.1 d hd), fun n c h => ?_⟩
  rcases h1.2 n c h with h' | h'
  · exact h2.2 n c h'
  · exact Or.inr (h2.1 c h')

theorem lookupMap_filter_value_not_mem (olds : List Nat) :
    ∀ (m : List (Nat × Nat)) (n c : Nat), lookupMap m n = some c → ¬ c ∈ olds →
      lookupMap (m.filter (fun p => ¬ p.2 ∈ olds)) n = some c := by
  intro m
  induction m with
  | nil => intro n c h _; simp [lookupMap] at h
  | cons p rest ih =>
    intro n c h hc
    by_cases hp : p.1 = n
    · have hpc : p.2 = c := by
        simp only [lookupMap, List.find?_cons, hp, decide_True, Option.map_some] at h
        exact Option.some.inj h
      simp only [List.filter_cons]
      rw [if_pos (by rw [hpc]; simpa using hc)]
      simp [lookupMap, List.find?_cons, hp, hpc]
    · have h' : lookupMap rest n = some c := by
        simpa only [lookupMap, List.find?_cons, hp, decide_False] using h
      simp only [List.filter_cons]
      by_cases hk : p.2 ∈ olds
      · rw [if_neg (by simpa using hk)]
        exact ih n c h' hc
      · rw [if_pos (by simpa using hk)]
        simpa only [lookupMap, List.find?_cons, hp, decide_False] using ih n c h' hc

theorem lookupMap_filter_keys_ne (k : Nat) :
    ∀ (m : List (Nat × Nat)) (n c : Nat), ¬ k = n → lookupMap m n = some c →
      lookupMap (m.filter (fun p => ¬ p.1 = k)) n = some c := by
  intro m
  induction m with
  | nil => intro n c _ h; simp [lookupMap] at h
  | cons p rest ih =>
    intro n c hkn h
    by_cases hp : p.1 = n
    · have hpc : p.2 = c := by
        simp only [lookupMap, List.find?_cons, hp, decide_True, Option.map_some] at h
        exact Option.some.inj h
      simp only [List.filter_cons]
      rw [if_pos (by simp only [decide_eq_true_eq]; intro he; exact hkn (by rw [← he]; exact hp))]
      simp [lookupMap, List.find?_cons, hp, hpc]
    · have h' : lookupMap rest n = some c := by
        simpa only [lookupMap, List.find?_cons, hp, decide_False] using h
      simp only [List.filter_cons]
      by_cases hk : p.1 = k
      · rw [if_neg (by simpa using hk)]
        exact ih n c hkn h'
      · rw [if_pos (by simpa using hk)]
        simpa only [lookupMap, List.find?_cons, hp, decide_False] using ih n c hkn h'

theorem lookupMap_insert_of_none (m : List (Nat × Nat)) (k v n c : Nat)
    (hk : lookupMap m k = none) (h : lookupMap m n = some c) :
    lookupMap (insertMap m k v) n = some c := by
  have hkn : ¬ k = n := by
    intro he
    rw [he, h] at hk
    cases hk
  have hhead : lookupMap ((k, v) :: m.filter (fun p => ¬ p.1 = k)) n =
      lookupMap (m.filter (fun p => ¬ p.1 = k)) n := by
    simp only [lookupMap, List.find?_cons, hkn, decide_False]
  rw [insertMap, hhead]
  exact lookupMap_filter_keys_ne k m n c hkn h

theorem mapPres_filterStep (s : State) (olds : List Nat) :
    MapPres s
      { s with
        copyMap := s.copyMap.filter (fun p => ¬ p.2 ∈ olds)
        deleted := s.deleted ++ olds } := by
  refine ⟨fun d hd => List.mem_append_left olds hd, fun n c h => ?_⟩
  by_cases hc : c ∈ olds
  · exact Or.inr (List.mem_append_right s.deleted hc)
  · exact Or.inl (lookupMap_filter_value_not_mem olds s.copyMap n c h hc)

theorem mapPres_insertStep (s : State) (k v : Nat)
    (hk : lookupMap s.copyMap k = none) :
    MapPres s { s with copyMap := insertMap s.copyMap k v } :=
  ⟨fun _ hd => hd, fun n c h => Or.inl (lookupMap_insert_of_none s.copyMap k v n c hk h)⟩

/-- The copy routines only ever drop an identity-map binding by deleting
its snapshot node: simultaneous induction over the five fuelled
functions. -/
theorem copy_routines_mapPres (E : Env) : ∀ fuel : Nat,
    (∀ s x r, CopyNodeConnections E fuel s x = some r → MapPres s r.1) ∧
    (∀ s l t, cncInputsGo E fuel s l = some t → MapPres s t) ∧
    (∀ s x t, CopyNodeMakeConnection E fuel s x = some t → MapPres s t) ∧
    (∀ s x t, CopyNodeInputValue E fuel s x = some t → MapPres s t) ∧
    (∀ s l t, cnivSubGo E fuel s l = some t → MapPres s t) := by
  intro fuel
  induction fuel with
  | zero =>
    refine ⟨?_, ?_, ?_, ?_, ?_⟩ <;> intro s x t h <;>
      simp [CopyNodeConnections, cncInputsGo, CopyNodeMakeConnection,
        CopyNodeInputValue, cnivSubGo] at h
  | succ f ih =>
    obtain ⟨ih1, ih2, ih3, ih4, ih5⟩ := ih
    refine ⟨?_, ?_, ?_, ?_, ?_⟩
    · intro s x r h
      rw [CopyNodeConnections] at h
      cases hl : lookupMap s.copyMap x with
      | some dst =>
        rw [hl] at h
        cases hgo : cncInputsGo E f s (E.getInputsIncludingArrays x) with
        | none => rw [hgo] at h; cases h
        | some s1 =>
          rw [hgo] at h
          cases h
          exact ih2 s _ s1 hgo
      | none =>
        rw [hl] at h
        simp only [] at h
        cases hgo : cncInputsGo E f
            { s with copyMap := insertMap s.copyMap x (E.copyNode x) }
            (E.getInputsIncludingArrays x) with
        | none => rw [hgo] at h; cases h
        | some s2 =>
          rw [hgo] at h
          cases h
          exact mapPres_trans (mapPres_insertStep s x (E.copyNode x) hl)
            (ih2 _ _ s2 hgo)
    · intro s l t h
      cases l with
      | nil =>
        rw [cncInputsGo] at h
        cases h
        exact mapPres_refl _
      | cons i rest =>
        rw [cncInputsGo] at h
        cases hmc : CopyNodeMakeConnection E f s i with
        | none => rw [hmc] at h; cases h
        | some s1 =>
          rw [hmc] at h
          exact mapPres_trans (ih3 s i s1 hmc) (ih2 s1 rest t h)
    · intro s x t h
      rw [CopyNodeMakeConnection] at h
      by_cases hcon : E.isConnected x = true
      · rw [if_pos hcon] at h
        cases hcc : CopyNodeConnections E f s (E.connectedNode x) with
        | none => rw [hcc] at h; cases h
        | some r =>
          rw [hcc] at h
          cases h
          exact ih1 s _ r hcc
      · rw [if_neg hcon] at h
        cases h
        exact mapPres_refl _
    · intro s x t h
      rw [CopyNodeInputValue] at h
      cases hl : lookupMap s.copyMap (E.parentNode x) with
      | none => rw [hl] at h; cases h
      | some ourCopyNode =>
        rw [hl] at h
        simp only [] at h
        by_cases hcon :
            (E.isConnected x || E.isConnected (E.getInputWithID ourCopyNode (E.inputId x)))
              = true
        · rw [if_pos hcon] at h
          cases hmc : CopyNodeMakeConnection E f
              { s with
                copyMap := s.copyMap.filter
                  (fun p => ¬ p.2 ∈ E.exclusiveDeps (E.getInputWithID ourCopyNode (E.inputId x)))
                deleted := s.deleted ++
                  E.exclusiveDeps (E.getInputWithID ourCopyNode (E.inputId x)) } x with
          | none => rw [hmc] at h; cases h
          | some s2 =>
            rw [hmc] at h
            simp only [] at h
            have hpre : MapPres s s2 :=
              mapPres_trans (mapPres_filterStep s _) (ih3 _ x s2 hmc)
            by_cases harr : E.isArray x = true
            · rw [if_pos harr] at h
              exact mapPres_trans hpre (ih5 s2 _ t h)
            · rw [if_neg harr] at h
              cases h
              exact hpre
        · rw [if_neg hcon] at h
          simp only [] at h
          by_cases harr : E.isArray x = true
          · rw [if_pos harr] at h
            exact ih5 s _ t h
          · rw [if_neg harr] at h
            cases h
            exact mapPres_refl _
    · intro s l t h
      cases l with
      | nil =>
        rw [cnivSubGo] at h
        cases h
        exact mapPres_refl _
      | cons i rest =>
        rw [cnivSubGo] at h
        cases hcv : CopyNodeInputValue E f s i with
        | none => rw [hcv] at h; cases h
        | some s1 =>
          rw [hcv] at h
          exact mapPres_trans (ih4 s i s1 hcv) (ih5 s1 rest t h)

theorem puqGo_mapPres (E : Env) :
    ∀ (l : List Nat) (s t : State), puqGo E l s = some t → MapPres s t := by
  intro l
  induction l with
  | nil =>
    intro s t h
    rw [puqGo] at h
    cases h
    exact mapPres_refl _
  | cons i rest ih =>
    intro s t h
    rw [puqGo] at h
    cases hcv : CopyNodeInputValue E E.fuel s i with
    | none => rw [hcv] at h; cases h
    | some s1 =>
      rw [hcv] at h
      exact mapPres_trans ((copy_routines_mapPres E E.fuel).2.2.2.1 s i s1 hcv)
        (ih s1 t h)

/-- The disconnect scenario: live input 1 lives on node 50, live input 2
on node 60; the snapshot counterpart of input 1 (snapshot input 151) is
still connected, and the snapshot copy of node 60 is its exclusive
dependency — node 60 had just been disconnected from input 1 on the live
graph. -/
def discEnv : Env :=
  { trivEnv with
    parentNode := fun i => if i = 1 then 50 else if i = 2 then 60 else 0
    getInputWithID := fun n i => n + i
    isConnected := fun i => i = 151
    exclusiveDeps := fun i => if i = 151 then [160] else []
    fuel := 3 }

/-- The backend state of the disconnect scenario: both queued inputs'
owning nodes have counterparts in the identity map. -/
def discState : State :=
  { initState with
    copyMap := [(50, 150), (60, 160)]
    updateQueue := [1, 2] }

/-- C8 counterexample: in the disconnect scenario the notification
contract is honored — the queue is irredundant and every queued input's
owning node has a counterpart when the flush starts — yet applying the
first queued input removes node 60's counterpart from the identity map
(as an exclusive dependency of the reconnected snapshot input), so when
the flush applies the second queued input its owning node's counterpart
is gone: `CopyNodeInputValue`'s assertion branch is reached and the
flush aborts. -/
theorem flush_assert_reachable_cex :
    Irredundant discEnv discState.updateQueue ∧
    lookupMap discState.copyMap (discEnv.parentNode 1) = some 150 ∧
    lookupMap discState.copyMap (discEnv.parentNode 2) = some 160 ∧
    (CopyNodeInputValue discEnv discEnv.fuel
        { discState with updateQueue := [], flushLog := discState.flushLog + 1 } 1).map
      (fun t => lookupMap t.copyMap (discEnv.parentNode 2)) = some none ∧
    ProcessUpdateQueue discEnv discState = none := by
  refine ⟨by decide, by decide, by decide, by decide, by decide⟩

/-- C8 amended: the enqueue-side assertion is unreachable under the
coverage contract — an input whose owning node lacks a counterpart while
a covering bulk copy is pending is ignored with the pending queue
non-empty.  The flush-side assertion is not unreachable: when the flush
reaches a queued input whose owning node had a counterpart at flush
start, that counterpart is either still mapped (and the assertion holds)
or it has been deleted as an exclusive dependency by an earlier apply of
the same flush (and the assertion fails, which is reachable). -/
theorem contract_asserts_dichotomy (E : Env) (s : State) :
    (∀ source, lookupMap s.copyMap (E.parentNode source) = none →
      coveredByPending E s source →
      NodeGraphChanged E s source = s ∧ ngcAssertHolds s) ∧
    (∀ (l₁ : List Nat) (i : Nat) (l₂ : List Nat) (c : Nat) (t : State),
      s.updateQueue = l₁ ++ i :: l₂ →
      lookupMap s.copyMap (E.parentNode i) = some c →
      puqGo E l₁ { s with updateQueue := [], flushLog := s.flushLog + 1 } = some t →
      lookupMap t.copyMap (E.parentNode i) = some c ∨ c ∈ t.deleted) := by
  constructor
  · intro source hnone hcov
    constructor
    · unfold NodeGraphChanged
      rw [hnone]
    · obtain ⟨q, hq, _⟩ := hcov
      intro hcontra
      rw [hcontra] at hq
      simp at hq
  · intro l₁ i l₂ c t _ hc hgo
    exact (puqGo_mapPres E l₁ _ t hgo).2 (E.parentNode i) c hc

/-- C8 amended witness: in the disconnect scenario the ignored-input
branch satisfies its assertion, and the dichotomy resolves to the deleted
side for the second queued input — its counterpart 160 is in the deleted
log after the first apply. -/
theorem contract_asserts_dichotomy_witness :
    (NodeGraphChanged discEnv discState 7 = discState ∧ ngcAssertHolds discState) ∧
    (lookupMap ({ initState with
        copyMap := [(50, 150)]
        deleted := [160]
        flushLog := 1 } : State).copyMap (discEnv.parentNode 2) = some 160 ∨
      (160 : Nat) ∈ ({ initState with
        copyMap := [(50, 150)]
        deleted := [160]
        flushLog := 1 } : State).deleted) :=
  ⟨(contract_asserts_dichotomy discEnv discState).1 7 (by decide) ⟨1, by decide, by decide⟩,
   (contract_asserts_dichotomy discEnv discState).2 [1] 2 [] 160
     { initState with copyMap := [(50, 150)], deleted := [160], flushLog := 1 }
     rfl (by decide) (by decide)⟩

/-! ### Chunking properties (C9) -/

theorem splitGo_eq_map (rin rout : ℚ) (cs : ℤ) (hcs : 0 < cs) :
    ∀ (n : ℕ) (i stop : ℤ), stop - i = n * cs →
      splitGo rin rout cs i stop =
        (List.range n).map (fun k : ℕ =>
          (max rin ((i : ℚ) + (k : ℚ) * (cs : ℚ)),
           min rout ((i : ℚ) + (k : ℚ) * (cs : ℚ) + (cs : ℚ))))
  | 0, i, stop, h => by
    have h0 : stop = i := by push_cast at h; simp at h; omega
    have hstop : ¬(0 < cs ∧ i < stop) := by omega
    rw [splitGo, dif_neg hstop]
    simp
  | n + 1, i, stop, h => by
    have hcn : (0 : ℤ) ≤ (n : ℤ) * cs := mul_nonneg (Int.natCast_nonneg n) (le_of_lt hcs)
    have h' : stop - (i + cs) = n * cs := by push_cast at h ⊢; linear_combination h
    have hlt : i < stop := by
      have h2 : stop - i = (n : ℤ) * cs + cs := by push_cast at h; linear_combination h
      omega
    rw [splitGo, dif_pos ⟨hcs, hlt⟩, splitGo_eq_map rin rout cs hcs n (i + cs) stop h']
    rw [List.range_succ_eq_map, List.map_cons, List.map_map]
    refine congrArg₂ _ ?_ ?_
    · refine Prod.ext ?_ ?_ <;> simp only [] <;> congr 1 <;> push_cast <;> ring
    · apply List.map_congr_left
      intro k _
      simp only [Function.comp_apply]
      refine Prod.ext ?_ ?_ <;> simp only [] <;> congr 1 <;> push_cast <;> ring

theorem splitWith_eq_map (cs : ℤ) (rin rout : ℚ) (hcs : 1 ≤ cs) (hle : rin ≤ rout) :
    SplitRangeIntoChunksWith cs rin rout =
      (List.range (⌈rout / (cs : ℚ)⌉ - ⌊rin / (cs : ℚ)⌋).toNat).map (fun k : ℕ =>
        (max rin ((⌊rin / (cs : ℚ)⌋ : ℚ) * (cs : ℚ) + (k : ℚ) * (cs : ℚ)),
         min rout ((⌊rin / (cs : ℚ)⌋ : ℚ) * (cs : ℚ) + (k : ℚ) * (cs : ℚ) + (cs : ℚ)))) := by
  have hcs' : (0 : ℤ) < cs := by omega
  have hcsQ : (0 : ℚ) < (cs : ℚ) := by exact_mod_cast hcs'
  have hm : (0 : ℤ) ≤ ⌈rout / (cs : ℚ)⌉ - ⌊rin / (cs : ℚ)⌋ := by
    have h1 : ⌊rin / (cs : ℚ)⌋ ≤ ⌊rout / (cs : ℚ)⌋ := Int.floor_le_floor (by gcongr)
    have h2 : ⌊rout / (cs : ℚ)⌋ ≤ ⌈rout / (cs : ℚ)⌉ := Int.floor_le_ceil _
    omega
  rw [SplitRangeIntoChunksWith,
    splitGo_eq_map rin rout cs hcs' (⌈rout / (cs : ℚ)⌉ - ⌊rin / (cs : ℚ)⌋).toNat
      (⌊rin / (cs : ℚ)⌋ * cs) (⌈rout / (cs : ℚ)⌉ * cs)
      (by rw [Int.toNat_of_nonneg hm]; ring)]
  apply List.map_congr_left
  intro k _
  refine Prod.ext ?_ ?_ <;> simp only [] <;> congr 1 <;> push_cast <;> ring

/-- Consecutive chunks: each chunk ends where the next begins. -/
def chunksConsecutive (l : List (ℚ × ℚ)) : Prop :=
  l.Chain' (fun a b => a.2 = b.1)

/-- Every chunk is clipped to the input range. -/
def chunksClipped (rin rout : ℚ) (l : List (ℚ × ℚ)) : Prop :=
  ∀ c ∈ l, rin ≤ c.1 ∧ c.2 ≤ rout

/-- Every chunk boundary is either the corresponding end of the input
range or a multiple of the chunk size. -/
def chunksAligned (cs : ℤ) (rin rout : ℚ) (l : List (ℚ × ℚ)) : Prop :=
  ∀ c ∈ l,
    (c.1 = rin ∨ ∃ m : ℤ, c.1 = (m : ℚ) * (cs : ℚ)) ∧
    (c.2 = rout ∨ ∃ m : ℤ, c.2 = (m : ℚ) * (cs : ℚ))

/-- The chunks cover exactly the half-open input range. -/
def chunksCover (rin rout : ℚ) (l : List (ℚ × ℚ)) : Prop :=
  ∀ t : ℚ, (rin ≤ t ∧ t < rout) ↔ ∃ c ∈ l, c.1 ≤ t ∧ t < c.2

/-- C9: splitting `[0, 5)` with the source's chunk size 2 yields exactly
`[0,2), [2,4), [4,5)`; and for every chunk size ≥ 1 and range with
bounds ≥ 0 the produced chunks are consecutive, clipped to the range,
chunk-aligned except at the range ends, and together cover exactly the
input range. -/
theorem split_range_chunks_spec :
    SplitRangeIntoChunks 0 5 = [(0, 2), (2, 4), (4, 5)] ∧
    (∀ (cs : ℤ) (rin rout : ℚ), 1 ≤ cs → 0 ≤ rin → rin ≤ rout →
      chunksConsecutive (SplitRangeIntoChunksWith cs rin rout) ∧
      chunksClipped rin rout (SplitRangeIntoChunksWith cs rin rout) ∧
      chunksAligned cs rin rout (SplitRangeIntoChunksWith cs rin rout) ∧
      chunksCover rin rout (SplitRangeIntoChunksWith cs rin rout)) := by
  constructor
  · rw [SplitRangeIntoChunks, SplitRangeIntoChunksWith]
    have hfl : ⌊(0 : ℚ) / ((2 : ℤ) : ℚ)⌋ = 0 := by norm_num
    have hcl : ⌈(5 : ℚ) / ((2 : ℤ) : ℚ)⌉ = 3 := by
      rw [show (((2 : ℤ) : ℚ)) = 2 from by norm_num, Int.ceil_eq_iff] <;> norm_num
    rw [hfl, hcl]
    rw [show ((0 : ℤ) * 2) = 0 from by norm_num, show ((3 : ℤ) * 2) = 6 from by norm_num]
    rw [splitGo_eq_map 0 5 2 (by norm_num) 3 0 6 (by norm_num)]
    norm_num [List.range_succ]
  · intro cs rin rout hcs hrin hle
    have hcs' : (0 : ℤ) < cs := by omega
    have hcsQ : (0 : ℚ) < (cs : ℚ) := by exact_mod_cast hcs'
    rw [splitWith_eq_map cs rin rout hcs hle]
    set b : ℤ := ⌊rin / (cs : ℚ)⌋ with hb
    set e : ℤ := ⌈rout / (cs : ℚ)⌉ with he
    have hm : (0 : ℤ) ≤ e - b := by
      have h1 : b ≤ ⌊rout / (cs : ℚ)⌋ := Int.floor_le_floor (by gcongr)
      have h2 : ⌊rout / (cs : ℚ)⌋ ≤ e := Int.floor_le_ceil _
      omega
    have hstart_le : (b : ℚ) * (cs : ℚ) ≤ rin := by
      have h1 : ((b : ℚ)) ≤ rin / (cs : ℚ) := Int.floor_le _
      calc (b : ℚ) * (cs : ℚ) ≤ (rin / (cs : ℚ)) * (cs : ℚ) :=
            mul_le_mul_of_nonneg_right h1 (le_of_lt hcsQ)
        _ = rin := div_mul_cancel₀ rin (ne_of_gt hcsQ)
    have hstart_lt : rin < (b : ℚ) * (cs : ℚ) + (cs : ℚ) := by
      have h1 : rin / (cs : ℚ) < (b : ℚ) + 1 := Int.lt_floor_add_one _
      calc rin = (rin / (cs : ℚ)) * (cs : ℚ) := (div_mul_cancel₀ rin (ne_of_gt hcsQ)).symm
        _ < ((b : ℚ) + 1) * (cs : ℚ) := mul_lt_mul_of_pos_right h1 hcsQ
        _ = (b : ℚ) * (cs : ℚ) + (cs : ℚ) := by ring
    have hstop_ge : rout ≤ (e : ℚ) * (cs : ℚ) := by
      have h1 : rout / (cs : ℚ) ≤ (e : ℚ) := Int.le_ceil _
      calc rout = (rout / (cs : ℚ)) * (cs : ℚ) := (div_mul_cancel₀ rout (ne_of_gt hcsQ)).symm
        _ ≤ (e : ℚ) * (cs : ℚ) := mul_le_mul_of_nonneg_right h1 (le_of_lt hcsQ)
    have hstop_lt : (e : ℚ) * (cs : ℚ) - (cs : ℚ) < rout := by
      have h1 : ((e : ℚ)) - 1 < rout / (cs : ℚ) := by
        have h2 := Int.ceil_lt_add_one (rout / (cs : ℚ))
        have h3 : ((e : ℚ)) < rout / (cs : ℚ) + 1 := by exact_mod_cast h2
        linarith
      calc (e : ℚ) * (cs : ℚ) - (cs : ℚ) = (((e : ℚ)) - 1) * (cs : ℚ) := by ring
        _ < (rout / (cs : ℚ)) * (cs : ℚ) := mul_lt_mul_of_pos_right h1 hcsQ
        _ = rout := div_mul_cancel₀ rout (ne_of_gt hcsQ)
    refine ⟨?_, ?_, ?_, ?_⟩
    · rw [chunksConsecutive, List.chain'_map]
      cases hn : (e - b).toNat with
      | zero => simp
      | succ n =>
        rw [List.chain'_range_succ]
        intro m hm'
        have hecast : ((e : ℚ)) = (b : ℚ) + (n : ℚ) + 1 := by
          have h1 : e - b = (n : ℤ) + 1 := by omega
          have h2 : (e : ℤ) = b + n + 1 := by omega
          exact_mod_cast congrArg (fun z : ℤ => (z : ℚ)) h2
        simp only []
        have harg : (b : ℚ) * (cs : ℚ) + ((m : ℚ) + 1) * (cs : ℚ) =
            (b : ℚ) * (cs : ℚ) + (m : ℚ) * (cs : ℚ) + (cs : ℚ) := by ring
        have hv1 : rin ≤ (b : ℚ) * (cs : ℚ) + (m : ℚ) * (cs : ℚ) + (cs : ℚ) := by
          have h0 : (0 : ℚ) ≤ (m : ℚ) * (cs : ℚ) :=
            mul_nonneg (Nat.cast_nonneg m) (le_of_lt hcsQ)
          linarith
        have hv2 : (b : ℚ) * (cs : ℚ) + (m : ℚ) * (cs : ℚ) + (cs : ℚ) ≤ rout := by
          have h1 : ((m : ℚ)) + 1 ≤ (n : ℚ) := by exact_mod_cast hm'
          have h2 : ((m : ℚ) + 1) * (cs : ℚ) ≤ (n : ℚ) * (cs : ℚ) :=
            mul_le_mul_of_nonneg_right h1 (le_of_lt hcsQ)
          have h3 : (b : ℚ) * (cs : ℚ) + (n : ℚ) * (cs : ℚ) + (cs : ℚ) =
              (e : ℚ) * (cs : ℚ) := by rw [hecast]; ring
          nlinarith [hstop_lt]
        push_cast
        rw [harg, min_eq_right hv2, max_eq_right hv1]
    · intro c hc
      rw [List.mem_map] at hc
      obtain ⟨k, _, rfl⟩ := hc
      exact ⟨le_max_left _ _, min_le_left _ _⟩
    · intro c hc
      rw [List.mem_map] at hc
      obtain ⟨k, _, rfl⟩ := hc
      constructor
      · rcases max_cases rin ((b : ℚ) * (cs : ℚ) + (k : ℚ) * (cs : ℚ)) with ⟨h1, _⟩ | ⟨h1, _⟩
        · left; exact h1
        · right
          refine ⟨b + k, ?_⟩
          rw [h1]
          push_cast
          ring
      · rcases min_cases rout ((b : ℚ) * (cs : ℚ) + (k : ℚ) * (cs : ℚ) + (cs : ℚ)) with
          ⟨h1, _⟩ | ⟨h1, _⟩
        · left; exact h1
        · right
          refine ⟨b + k + 1, ?_⟩
          rw [h1]
          push_cast
          ring
    · intro t
      constructor
      · rintro ⟨hrt, htr⟩
        have hbt : b ≤ ⌊t / (cs : ℚ)⌋ := Int.floor_le_floor (by gcongr)
        have hte : ⌊t / (cs : ℚ)⌋ < e := by
          by_contra hcon
          push_neg at hcon
          have h1 : ((e : ℚ)) ≤ (⌊t / (cs : ℚ)⌋ : ℚ) := by exact_mod_cast hcon
          have h2 : (⌊t / (cs : ℚ)⌋ : ℚ) ≤ t / (cs : ℚ) := Int.floor_le _
          have h3 : rout / (cs : ℚ) ≤ (e : ℚ) := Int.le_ceil _
          have h4 : rout / (cs : ℚ) ≤ t / (cs : ℚ) := le_trans h3 (le_trans h1 h2)
          have h5 : rout ≤ t := by
            have h6 := mul_le_mul_of_nonneg_right h4 (le_of_lt hcsQ)
            rwa [div_mul_cancel₀ rout (ne_of_gt hcsQ),
              div_mul_cancel₀ t (ne_of_gt hcsQ)] at h6
          linarith
        have hknn : (0 : ℤ) ≤ ⌊t / (cs : ℚ)⌋ - b := by omega
        have hkcast : (((⌊t / (cs : ℚ)⌋ - b).toNat : ℚ)) = (⌊t / (cs : ℚ)⌋ : ℚ) - (b : ℚ) := by
          have h1 : ((⌊t / (cs : ℚ)⌋ - b).toNat : ℤ) = ⌊t / (cs : ℚ)⌋ - b :=
            Int.toNat_of_nonneg hknn
          exact_mod_cast congrArg (fun z : ℤ => (z : ℚ)) h1
        refine ⟨(max rin ((b : ℚ) * (cs : ℚ) +
            (((⌊t / (cs : ℚ)⌋ - b).toNat : ℚ)) * (cs : ℚ)),
          min rout ((b : ℚ) * (cs : ℚ) +
            (((⌊t / (cs : ℚ)⌋ - b).toNat : ℚ)) * (cs : ℚ) + (cs : ℚ))), ?_, ?_, ?_⟩
        · rw [List.mem_map]
          refine ⟨(⌊t / (cs : ℚ)⌋ - b).toNat, ?_, rfl⟩
          rw [List.mem_range]
          omega
        · have hfloor : ((b : ℚ) * (cs : ℚ) +
              (((⌊t / (cs : ℚ)⌋ - b).toNat : ℚ)) * (cs : ℚ)) =
              (⌊t / (cs : ℚ)⌋ : ℚ) * (cs : ℚ) := by rw [hkcast]; ring
          have h2 : (⌊t / (cs : ℚ)⌋ : ℚ) * (cs : ℚ) ≤ t := by
            have h3 : (⌊t / (cs : ℚ)⌋ : ℚ) ≤ t / (cs : ℚ) := Int.floor_le _
            calc (⌊t / (cs : ℚ)⌋ : ℚ) * (cs : ℚ) ≤ (t / (cs : ℚ)) * (cs : ℚ) :=
                  mul_le_mul_of_nonneg_right h3 (le_of_lt hcsQ)
              _ = t := div_mul_cancel₀ t (ne_of_gt hcsQ)
          rw [hfloor] at *
          exact max_le hrt h2
        · have hfloor : ((b : ℚ) * (cs : ℚ) +
              (((⌊t / (cs : ℚ)⌋ - b).toNat : ℚ)) * (cs : ℚ) + (cs : ℚ)) =
              (⌊t / (cs : ℚ)⌋ : ℚ) * (cs : ℚ) + (cs : ℚ) := by rw [hkcast]; ring
          have h2 : t < (⌊t / (cs : ℚ)⌋ : ℚ) * (cs : ℚ) + (cs : ℚ) := by
            have h3 : t / (cs : ℚ) < (⌊t / (cs : ℚ)⌋ : ℚ) + 1 := Int.lt_floor_add_one _
            calc t = (t / (cs : ℚ)) * (cs : ℚ) := (div_mul_cancel₀ t (ne_of_gt hcsQ)).symm
              _ < ((⌊t / (cs : ℚ)⌋ : ℚ) + 1) * (cs : ℚ) := mul_lt_mul_of_pos_right h3 hcsQ
              _ = (⌊t / (cs : ℚ)⌋ : ℚ) * (cs : ℚ) + (cs : ℚ) := by ring
          rw [hfloor]
          exact lt_min htr h2
      · rintro ⟨c, hc, hct, htc⟩
        rw [List.mem_map] at hc
        obtain ⟨k, _, rfl⟩ := hc
        constructor
        · exact le_trans (le_max_left _ _) hct
        · exact lt_of_lt_of_le htc (min_le_left _ _)

/-- C9 witness: the general properties applied at chunk size 2 on the
range `[0, 5)`. -/
theorem split_range_chunks_spec_witness :
    SplitRangeIntoChunks 0 5 = [(0, 2), (2, 4), (4, 5)] ∧
    chunksConsecutive (SplitRangeIntoChunksWith 2 0 5) ∧
    chunksCover 0 5 (SplitRangeIntoChunksWith 2 0 5) :=
  ⟨split_range_chunks_spec.1,
   (split_range_chunks_spec.2 2 0 5 (by norm_num) le_rfl (by norm_num)).1,
   (split_range_chunks_spec.2 2 0 5 (by norm_num) le_rfl (by norm_num)).2.2.2⟩

end Olive
